import Mathlib

/-!
Verification of the report-generation core of the time-tracking app: the PDF
edge function `download-time-entries-pdf` (source file
`supabase/functions/download-time-entries-pdf/index.ts`).

The development shallowly embeds the two algorithmic pieces of that file:

* `writeWrappedText` — the greedy word-wrapping helper (source lines 97–113);
* `buildPdf` — the document composition (source lines 40–170), modelled as a
  pure function from the entry list to a trace of drawing operations plus the
  final cursor/total state.  PDF serialisation and base64 encoding are not
  modelled; the operation trace stands for the produced document.

Text measurement (`font.widthOfTextAtSize(·, 11)`) is abstracted as a
function `measure : String → ℤ`.  All lengths, coordinates, font sizes and
colour components are represented in hundredths of the source's units, so
that every decimal constant of the source (`841.89`, `0.97`, …) becomes an
integer; this uniform scaling preserves all comparisons and all additive
arithmetic of the source, which never divides or multiplies two lengths.
-/

namespace TimeReport

/-- Splits a character list into its maximal runs of non-whitespace
characters; `cur` accumulates the run currently being read. -/
def wordsAux : List Char → List Char → List (List Char)
  | [], cur => if cur = [] then [] else [cur]
  | c :: cs, cur =>
    if c.isWhitespace then
      if cur = [] then wordsAux cs [] else cur :: wordsAux cs []
    else
      wordsAux cs (cur ++ [c])

/-- The whitespace-separated words of a string: maximal non-whitespace runs,
in order, with no empty tokens. -/
def wsWords (s : String) : List String := (wordsAux s.data []).map String.mk

/-- Whether the head character of a character list is whitespace. -/
def headWs : List Char → Bool
  | [] => false
  | c :: _ => c.isWhitespace

/-- Whether the string's first character is whitespace. -/
def startsWithWs (s : String) : Bool := headWs s.data

/-- Whether the string's last character is whitespace. -/
def endsWithWs (s : String) : Bool := headWs s.data.reverse

/-- Model of JavaScript's `text.split(/\s+/)` as used at source line 98:
maximal whitespace runs are separators, a string beginning (ending) with
whitespace contributes one empty token at the front (back), and the empty
string yields `[""]` (the regex does not match an empty string, so the
whole string is returned unsplit). -/
def jsSplitWs (s : String) : List String :=
  if s.data = [] then [""]
  else
    (if startsWithWs s then [""] else []) ++ wsWords s
      ++ (if endsWithWs s then [""] else [])

/-- One iteration of the greedy accumulation loop of `writeWrappedText`
(source lines 101–110): `st.1` is the list of closed lines, `st.2` the line
currently being built (the source's `current`), `w` the next token.  The
source tests `width > maxWidth && current`, JavaScript string truthiness
being `current ≠ ""`. -/
def wrapStep (measure : String → Int) (maxWidth : Int)
    (st : List String × String) (w : String) : List String × String :=
  let tentative := if st.2 = "" then w else st.2 ++ " " ++ w
  if measure tentative > maxWidth ∧ st.2 ≠ "" then (st.1 ++ [st.2], w)
  else (st.1, tentative)

/-- The greedy loop run over a prepared token list, followed by the final
`if (current) lines.push(current)` of source line 111. -/
def wrapTokens (measure : String → Int) (maxWidth : Int)
    (tokens : List String) : List String :=
  let r := tokens.foldl (wrapStep measure maxWidth) ([], "")
  if r.2 = "" then r.1 else r.1 ++ [r.2]

/-- Embedding of `writeWrappedText` (source lines 97–113).  `measure` stands
for `font.widthOfTextAtSize(·, 11)`; the source's third parameter
`lineHeight` is never used inside the function and is dropped here. -/
def writeWrappedText (measure : String → Int) (text : String)
    (maxWidth : Int) : List String :=
  wrapTokens measure maxWidth (jsSplitWs text)

/-- Modelled from the spec (§4.2 reference rule): split the text on runs of
whitespace into words, collapsing repeated whitespace and discarding
leading/trailing empty tokens, then greedily accumulate exactly as the
wrapper's loop does. -/
def refWrap (measure : String → Int) (text : String) (maxWidth : Int) :
    List String :=
  wrapTokens measure maxWidth (wsWords text)

/-- Joins lines with single spaces, as in the spec's phrase "re-wrapping its
own output joined by single spaces". -/
def joinSp : List String → String
  | [] => ""
  | [l] => l
  | l :: ls => l ++ " " ++ joinSp ls

/-- Character-count measure (one unit per character), used to instantiate
the abstract text measurer on concrete inputs. -/
def lenMeasure (s : String) : Int := s.data.length

/-- One work-log record as consumed by `buildPdf` (spec §3).  JavaScript
falsy handling in the source is modelled by `Option` for `duration_minutes`
(`e.duration_minutes || 0`) and by an emptiness test for `project_code`
(`e.project_code || "-"`). -/
structure TimeEntry where
  entry_date : String
  project_code : String
  description : String
  duration_minutes : Option Int
  created_at : String
deriving DecidableEq

/-- An RGB colour; components are the source's `rgb(...)` arguments times
100. -/
structure Color where
  r : Int
  g : Int
  b : Int
deriving DecidableEq

/-- Constructor mirroring `rgb` from pdf-lib (components scaled by 100). -/
def rgb (r g b : Int) : Color := ⟨r, g, b⟩

/-- Colour `colors.text` of the source palette (lines 55–62). -/
def colorText : Color := rgb 10 10 12

/-- Colour `colors.muted` of the source palette. -/
def colorMuted : Color := rgb 45 45 50

/-- Colour `colors.primary` of the source palette. -/
def colorPrimary : Color := rgb 13 20 36

/-- Colour `colors.band` of the source palette. -/
def colorBand : Color := rgb 93 95 100

/-- Colour `colors.border` of the source palette. -/
def colorBorder : Color := rgb 82 85 90

/-- Colour `colors.zebra` of the source palette. -/
def colorZebra : Color := rgb 97 98 100

/-- Page width of an A4 page (source line 43; `595.28`, scaled). -/
def pageW : Int := 59528

/-- Page height of an A4 page (source line 43; `841.89`, scaled). -/
def pageH : Int := 84189

/-- Left/right page margin (source line 49; `40`, scaled). -/
def margin : Int := 4000

/-- Brand-band height (source line 50; `56`, scaled). -/
def headerHeight : Int := 5600

/-- Minimum row height (source line 51; `22`, scaled). -/
def rowHeight : Int := 2200

/-- Gap between brand band and table header (source line 52; `18`, scaled). -/
def tableTopGap : Int := 1800

/-- Line height used for wrapped description lines (the literal `14` of
source lines 129 and 153, scaled). -/
def lineHeight14 : Int := 1400

/-- Width given to the wrapper for the description column:
`tableCols[3] - 4` with `tableCols = [100, 140, 70, 210]` (source line 128,
scaled). -/
def descWidth : Int := 21000 - 400

/-- The threshold of the fits-check `y - neededHeight < margin + 40`
(source line 131, scaled): content below this vertical offset does not
fit. -/
def bottomMargin : Int := margin + 4000

/-- Vertical space consumed by the summary footer: the rule is drawn at the
current offset and the total line 14 units below it (source lines 163–165,
scaled). -/
def footerHeight : Int := 1400

/-- One drawing operation of the composition, tagged with the (0-based)
index of the page it is drawn on. -/
inductive DrawOp where
  | rect (page : Nat) (x y width height : Int) (color : Color)
  | line (page : Nat) (x1 y1 x2 y2 : Int) (thickness : Int) (color : Color)
  | text (page : Nat) (content : String) (x y size : Int) (bold : Bool) (color : Color)
deriving DecidableEq

/-- The page an operation is drawn on. -/
def DrawOp.page : DrawOp → Nat
  | .rect p _ _ _ _ _ => p
  | .line p _ _ _ _ _ _ => p
  | .text p _ _ _ _ _ _ => p

/-- Compositor state: current page index, vertical cursor, running total of
minutes, and the trace of operations drawn so far. -/
structure CompState where
  pageIdx : Nat
  y : Int
  total : Int
  ops : List DrawOp
deriving DecidableEq

/-- Number of pages allocated so far. -/
def CompState.pages (st : CompState) : Nat := st.pageIdx + 1

/-- Operations of `addHeader` (source lines 66–71) on page `p`: brand band
rectangle, report title, and date-range caption. -/
def addHeaderOps (p : Nat) (start end_ : String) : List DrawOp :=
  [ .rect p 0 (pageH - headerHeight) pageW headerHeight colorBand,
    .text p "Tracker — Time Entries Report" margin (pageH - headerHeight + 2000) 1800 true colorPrimary,
    .text p (s!"Date range: {start} to {end_}") margin (pageH - headerHeight + 600) 1100 false colorMuted ]

/-- Operations of `addTableHeader` (source lines 73–84) on page `p`: the
four column headers and the rule under them.  Column x positions accumulate
the widths `[100, 140, 70, 210]` from the left margin. -/
def addTableHeaderOps (p : Nat) : List DrawOp :=
  [ .text p "Date" margin (pageH - headerHeight - tableTopGap) 1100 true colorText,
    .text p "Project" (margin + 10000) (pageH - headerHeight - tableTopGap) 1100 true colorText,
    .text p "Duration" (margin + 24000) (pageH - headerHeight - tableTopGap) 1100 true colorText,
    .text p "Description" (margin + 31000) (pageH - headerHeight - tableTopGap) 1100 true colorText,
    .line p margin (pageH - headerHeight - tableTopGap - 800) (pageW - margin) (pageH - headerHeight - tableTopGap - 800) 100 colorBorder ]

/-- Vertical cursor position just below the table header, where
`addTableHeader` leaves `y` (source lines 74–83). -/
def yTop : Int := pageH - headerHeight - tableTopGap - 800 - 600

/-- State after source lines 44 and 92–93: one fresh page with brand header
and table header drawn, cursor at the top of the content area, zero total. -/
def initState (start end_ : String) : CompState :=
  { pageIdx := 0, y := yTop, total := 0,
    ops := addHeaderOps 0 start end_ ++ addTableHeaderOps 0 }

/-- Embedding of `addNewPage` (source lines 86–90): allocate the next page,
redraw brand header and table header on it, reset the cursor. -/
def addNewPage (start end_ : String) (st : CompState) : CompState :=
  { pageIdx := st.pageIdx + 1, y := yTop, total := st.total,
    ops := st.ops ++ addHeaderOps (st.pageIdx + 1) start end_
      ++ addTableHeaderOps (st.pageIdx + 1) }

/-- The duration cell text (source lines 116–117 and 123):
`Math.floor((e.duration_minutes || 0) / 60)` hours and
`(e.duration_minutes || 0) % 60` minutes; `Int.fdiv`/`Int.tmod` are the
exact counterparts of JavaScript's `Math.floor(· / 60)` and `% 60`. -/
def durationCell (d : Option Int) : String :=
  let m := d.getD 0
  s!"{m.fdiv 60}h {m.tmod 60}m"

/-- The footer total text (source line 165). -/
def totalString (total : Int) : String :=
  s!"Total: {total.fdiv 60}h {total.tmod 60}m ({total} minutes)"

/-- The wrapped description lines drawn one under the other, 14 units apart
(source lines 150–154). -/
def descLineOps (p : Nat) (x : Int) : List String → Int → List DrawOp
  | [], _ => []
  | l :: ls, dy => .text p l x dy 1100 false colorMuted :: descLineOps p x ls (dy - lineHeight14)

/-- The operations drawn for one row (source lines 135–154) on page `p` with
the cursor at `yv`: zebra background band, the three fixed cells, and the
wrapped description lines. -/
def rowOps (p : Nat) (yv : Int) (c0 c1 c2 : String) (descLines : List String)
    (nh : Int) : List DrawOp :=
  .rect p (margin - 400) (yv - nh + 400) (pageW - 2 * (margin - 400)) nh colorZebra ::
  .text p c0 margin yv 1100 false colorText ::
  .text p c1 (margin + 10000) yv 1100 false colorText ::
  .text p c2 (margin + 24000) yv 1100 false colorText ::
  descLineOps p (margin + 31000) descLines yv

/-- Row height: `Math.max(rowHeight, descLines.length * 14)` (source line
129, scaled). -/
def rowNeededHeight (measure : String → Int) (e : TimeEntry) : Int :=
  max rowHeight (((writeWrappedText measure e.description descWidth).length : Int) * lineHeight14)

/-- One iteration of the composition loop over the entries (source lines
115–157): accumulate the duration, wrap the description, allocate a new
page when the row does not fit, draw the row, advance the cursor. -/
def rowStep (measure : String → Int) (start end_ : String)
    (st : CompState) (e : TimeEntry) : CompState :=
  let dur := e.duration_minutes.getD 0
  let c0 := e.entry_date
  let c1 := if e.project_code = "" then "-" else e.project_code
  let c2 := durationCell e.duration_minutes
  let descLines := writeWrappedText measure e.description descWidth
  let nh := rowNeededHeight measure e
  let st1 := if st.y - nh < bottomMargin then addNewPage start end_ st else st
  { pageIdx := st1.pageIdx,
    y := st1.y - (nh + 600),
    total := st.total + dur,
    ops := st1.ops ++ rowOps st1.pageIdx st1.y c0 c1 c2 descLines nh }

/-- The summary footer (source lines 159–165): allocate a new page when
`y < margin + 40`, then draw the rule at the cursor and the total line 14
units below it. -/
def footerStep (start end_ : String) (st : CompState) : CompState :=
  let st1 := if st.y < bottomMargin then addNewPage start end_ st else st
  { pageIdx := st1.pageIdx,
    y := st1.y - footerHeight,
    total := st1.total,
    ops := st1.ops ++
      [ .line st1.pageIdx margin st1.y (pageW - margin) st1.y 100 colorBorder,
        .text st1.pageIdx (totalString st1.total) margin (st1.y - footerHeight) 1200 true colorPrimary ] }

/-- The state after the composition loop over all entries (source lines
115–157), before the summary footer. -/
def loopState (measure : String → Int) (entries : List TimeEntry)
    (start end_ : String) : CompState :=
  entries.foldl (rowStep measure start end_) (initState start end_)

/-- Embedding of `buildPdf` (source lines 40–170): header and table header
on a fresh page, the composition loop over the entries, then the footer.
The result keeps the full drawing trace together with the accumulated
total. -/
def buildPdf (measure : String → Int) (entries : List TimeEntry)
    (start end_ : String) : CompState :=
  footerStep start end_ (loopState measure entries start end_)

/-- The colours of the row background bands, in row order: rectangles drawn
at the band's x position `margin - 4` (the brand band is drawn at x `0` and
is not a row band). -/
def rowBandColors (ops : List DrawOp) : List Color :=
  ops.filterMap fun op =>
    match op with
    | .rect _ x _ _ _ c => if x = margin - 400 then some c else none
    | _ => none

/-- A clean word: nonempty and containing no whitespace character.  The
tokens produced by splitting on whitespace runs are of this shape. -/
def CleanWord (w : String) : Prop :=
  w ≠ "" ∧ ∀ c ∈ w.data, c.isWhitespace = false

/-- The words of a wrapping state, in order: words of the closed lines
followed by the words of the line under construction. -/
def flatSt (st : List String × String) : List String :=
  st.1.flatMap wsWords ++ wsWords st.2

/-- Invariant of the wrapping state used for the edge analysis: closed lines
are nonempty and do not end in whitespace, and neither does a nonempty
line under construction. -/
def NiceSt (st : List String × String) : Prop :=
  (∀ l ∈ st.1, l ≠ "" ∧ endsWithWs l = false) ∧
    (st.2 ≠ "" → endsWithWs st.2 = false)

/-- Invariant of the wrapping state used for the width analysis: every
closed line either measures within the limit or is one of the allowed
single words `S`, and so does a nonempty line under construction. -/
def WidthInv (measure : String → Int) (maxWidth : Int) (S : List String)
    (st : List String × String) : Prop :=
  (∀ l ∈ st.1, measure l ≤ maxWidth ∨ l ∈ S) ∧
    (st.2 = "" ∨ measure st.2 ≤ maxWidth ∨ st.2 ∈ S)

section WordLemmas

theorem data_append (a b : String) : (a ++ b).data = a.data ++ b.data := rfl

theorem string_eq_of_data {a b : String} (h : a.data = b.data) : a = b := by
  cases a
  cases b
  exact congrArg String.mk h

theorem string_data_eq_nil {s : String} (h : s.data = []) : s = "" :=
  string_eq_of_data h

theorem string_ne_empty_of_data {s : String} (h : s.data ≠ []) : s ≠ "" := by
  intro he
  exact h (by simp [he])

theorem append_empty_str (s : String) : s ++ "" = s :=
  string_eq_of_data (by rw [data_append]; exact List.append_nil _)

theorem append_space_ne (a b : String) : a ++ " " ++ b ≠ "" := by
  apply string_ne_empty_of_data
  rw [data_append, data_append]
  intro h
  have := congrArg List.length h
  simp at this

theorem wordsAux_nil (cur : List Char) :
    wordsAux [] cur = if cur = [] then [] else [cur] := rfl

theorem wordsAux_cons_ws {c : Char} (hc : c.isWhitespace = true)
    (cs cur : List Char) :
    wordsAux (c :: cs) cur =
      if cur = [] then wordsAux cs [] else cur :: wordsAux cs [] := by
  simp [wordsAux, hc]

theorem wordsAux_cons_not {c : Char} (hc : c.isWhitespace = false)
    (cs cur : List Char) :
    wordsAux (c :: cs) cur = wordsAux cs (cur ++ [c]) := by
  simp [wordsAux, hc]

/-- Splicing a whitespace character between two character lists splits the
word computation at that point. -/
theorem wordsAux_append_ws (c : Char) (hc : c.isWhitespace = true) :
    ∀ (as : List Char) (cur bs : List Char),
      wordsAux (as ++ c :: bs) cur = wordsAux as cur ++ wordsAux bs [] := by
  intro as
  induction as with
  | nil =>
    intro cur bs
    rw [List.nil_append, wordsAux_cons_ws hc, wordsAux_nil]
    by_cases h : cur = []
    · rw [if_pos h, if_pos h, List.nil_append]
    · rw [if_neg h, if_neg h, List.cons_append, List.nil_append]
  | cons a as ih =>
    intro cur bs
    rw [List.cons_append]
    by_cases ha : a.isWhitespace
    · rw [wordsAux_cons_ws ha, wordsAux_cons_ws ha, ih]
      by_cases h : cur = []
      · rw [if_pos h, if_pos h]
      · rw [if_neg h, if_neg h, List.cons_append]
    · have ha' : a.isWhitespace = false := by simpa using ha
      rw [wordsAux_cons_not ha', wordsAux_cons_not ha', ih]

/-- A run of non-whitespace characters forms a single word together with
the accumulator. -/
theorem wordsAux_clean :
    ∀ (w : List Char), (∀ c ∈ w, c.isWhitespace = false) →
      ∀ cur, wordsAux w cur = if cur ++ w = [] then [] else [cur ++ w] := by
  intro w
  induction w with
  | nil =>
    intro _ cur
    rw [wordsAux_nil, List.append_nil]
  | cons c cs ih =>
    intro h cur
    have hc : c.isWhitespace = false := h c (List.mem_cons_self c cs)
    have hcs : ∀ x ∈ cs, x.isWhitespace = false :=
      fun x hx => h x (List.mem_cons_of_mem c hx)
    rw [wordsAux_cons_not hc, ih hcs (cur ++ [c])]
    have hne : cur ++ c :: cs ≠ [] := by simp
    have hne2 : cur ++ [c] ++ cs ≠ [] := by simp
    rw [if_neg hne2, if_neg hne, List.append_assoc]
    simp

/-- Every word produced by `wordsAux` from a clean accumulator is nonempty
and clean. -/
theorem wordsAux_all_clean :
    ∀ (cs cur : List Char), (∀ c ∈ cur, c.isWhitespace = false) →
      ∀ l ∈ wordsAux cs cur, l ≠ [] ∧ ∀ c ∈ l, c.isWhitespace = false := by
  intro cs
  induction cs with
  | nil =>
    intro cur hcur l hl
    rw [wordsAux_nil] at hl
    by_cases h : cur = []
    · rw [if_pos h] at hl
      simp at hl
    · rw [if_neg h] at hl
      simp at hl
      subst hl
      exact ⟨h, hcur⟩
  | cons c cs ih =>
    intro cur hcur l hl
    by_cases ha : c.isWhitespace
    · rw [wordsAux_cons_ws ha] at hl
      by_cases h : cur = []
      · rw [if_pos h] at hl
        exact ih [] (by simp) l hl
      · rw [if_neg h] at hl
        cases hl with
        | head => exact ⟨h, hcur⟩
        | tail _ hl => exact ih [] (by simp) l hl
    · have ha' : c.isWhitespace = false := by simpa using ha
      rw [wordsAux_cons_not ha'] at hl
      refine ih (cur ++ [c]) ?_ l hl
      intro x hx
      rcases List.mem_append.mp hx with hx | hx
      · exact hcur x hx
      · simp at hx
        subst hx
        exact ha'

theorem mk_data (s : String) : String.mk s.data = s := rfl

theorem wsWords_empty : wsWords "" = [] := rfl

theorem wsWords_append_space (a b : String) :
    wsWords (a ++ " " ++ b) = wsWords a ++ wsWords b := by
  unfold wsWords
  have hd : (a ++ " " ++ b).data = a.data ++ ' ' :: b.data := by
    rw [data_append, data_append, List.append_assoc]
    rfl
  rw [hd, wordsAux_append_ws ' ' (by decide), List.map_append]

theorem wsWords_append_space_right (a : String) :
    wsWords (a ++ " ") = wsWords a := by
  have h := wsWords_append_space a ""
  rw [append_empty_str] at h
  rw [h, wsWords_empty, List.append_nil]

theorem wsWords_clean {w : String} (h : CleanWord w) : wsWords w = [w] := by
  unfold wsWords
  rw [wordsAux_clean w.data h.2 [], List.nil_append]
  have hdata : w.data ≠ [] := fun hd => h.1 (string_data_eq_nil hd)
  rw [if_neg hdata, List.map_singleton, mk_data]

theorem wsWords_mem_clean {s w : String} (h : w ∈ wsWords s) : CleanWord w := by
  unfold wsWords at h
  rcases List.mem_map.mp h with ⟨l, hl, rfl⟩
  have hc := wordsAux_all_clean s.data [] (by simp) l hl
  exact ⟨string_ne_empty_of_data hc.1, hc.2⟩

theorem flatMap_wsWords_clean :
    ∀ (l : List String), (∀ w ∈ l, CleanWord w) → l.flatMap wsWords = l := by
  intro l
  induction l with
  | nil => intro _; rfl
  | cons w ws ih =>
    intro h
    rw [List.flatMap_cons, wsWords_clean (h w (List.mem_cons_self w ws)),
      ih fun x hx => h x (List.mem_cons_of_mem w hx)]
    rfl

theorem jsSplit_tokens {s t : String} (h : t ∈ jsSplitWs s) :
    t = "" ∨ CleanWord t := by
  unfold jsSplitWs at h
  by_cases h0 : s.data = []
  · rw [if_pos h0] at h
    simp at h
    exact Or.inl h
  · rw [if_neg h0] at h
    rcases List.mem_append.mp h with h1 | h1
    · rcases List.mem_append.mp h1 with h2 | h2
      · by_cases hp : startsWithWs s
        · rw [if_pos hp] at h2
          simp at h2
          exact Or.inl h2
        · rw [if_neg hp] at h2
          simp at h2
      · exact Or.inr (wsWords_mem_clean h2)
    · by_cases hq : endsWithWs s
      · rw [if_pos hq] at h1
        simp at h1
        exact Or.inl h1
      · rw [if_neg hq] at h1
        simp at h1

theorem jsSplit_flatMap (s : String) :
    (jsSplitWs s).flatMap wsWords = wsWords s := by
  unfold jsSplitWs
  by_cases h0 : s.data = []
  · rw [if_pos h0, string_data_eq_nil h0]
    rfl
  · rw [if_neg h0]
    have hmid : (wsWords s).flatMap wsWords = wsWords s :=
      flatMap_wsWords_clean _ fun w hw => wsWords_mem_clean hw
    rw [List.flatMap_append, List.flatMap_append, hmid]
    by_cases hp : startsWithWs s
    · by_cases hq : endsWithWs s
      · rw [if_pos hp, if_pos hq]
        simp [wsWords_empty]
      · rw [if_pos hp, if_neg hq]
        simp [wsWords_empty]
    · by_cases hq : endsWithWs s
      · rw [if_neg hp, if_pos hq]
        simp [wsWords_empty]
      · rw [if_neg hp, if_neg hq]
        simp

theorem headWs_append {x : List Char} (hx : x ≠ []) (y : List Char) :
    headWs (x ++ y) = headWs x := by
  cases x with
  | nil => exact absurd rfl hx
  | cons c cs => rfl

theorem endsWithWs_append (a : String) {b : String} (hb : b ≠ "") :
    endsWithWs (a ++ b) = endsWithWs b := by
  unfold endsWithWs
  rw [data_append, List.reverse_append]
  refine headWs_append ?_ _
  intro hd
  rw [List.reverse_eq_nil_iff] at hd
  exact hb (string_data_eq_nil hd)

theorem cleanWord_not_endsWithWs {w : String} (h : CleanWord w) :
    endsWithWs w = false := by
  unfold endsWithWs
  cases hr : w.data.reverse with
  | nil => rfl
  | cons c cs =>
    have hc : c ∈ w.data := by
      rw [← List.mem_reverse, hr]
      exact List.mem_cons_self c cs
    exact h.2 c hc

theorem space_endsWithWs : endsWithWs " " = true := rfl

end WordLemmas

section WrapLemmas

variable (measure : String → Int) (maxWidth : Int)

theorem wrapStep_eq_empty (L : List String) (w : String) :
    wrapStep measure maxWidth (L, "") w = (L, w) := by
  unfold wrapStep
  simp

theorem wrapStep_eq_cons {cur : String} (hc : cur ≠ "") (L : List String)
    (w : String) :
    wrapStep measure maxWidth (L, cur) w =
      if measure (cur ++ " " ++ w) > maxWidth then (L ++ [cur], w)
      else (L, cur ++ " " ++ w) := by
  unfold wrapStep
  simp only [if_neg hc]
  by_cases hov : measure (cur ++ " " ++ w) > maxWidth
  · rw [if_pos ⟨hov, hc⟩, if_pos hov]
  · rw [if_neg fun hh => hov hh.1, if_neg hov]

theorem wrapStep_empty_cur (L : List String) :
    wrapStep measure maxWidth (L, "") "" = (L, "") :=
  wrapStep_eq_empty measure maxWidth L ""

theorem foldl_wrapStep_empties :
    ∀ (ts : List String), (∀ t ∈ ts, t = "") → ∀ (L : List String),
      ts.foldl (wrapStep measure maxWidth) (L, "") = (L, "") := by
  intro ts
  induction ts with
  | nil => intro _ L; rfl
  | cons t ts ih =>
    intro h L
    have ht : t = "" := h t (List.mem_cons_self t ts)
    rw [List.foldl_cons, ht, wrapStep_empty_cur,
      ih (fun x hx => h x (List.mem_cons_of_mem t hx)) L]

theorem wrapStep_flat (st : List String × String) (w : String)
    (hw : w = "" ∨ CleanWord w) :
    flatSt (wrapStep measure maxWidth st w) = flatSt st ++ wsWords w := by
  obtain ⟨L, cur⟩ := st
  by_cases hc : cur = ""
  · subst hc
    rw [wrapStep_eq_empty]
    simp [flatSt, wsWords_empty]
  · rw [wrapStep_eq_cons measure maxWidth hc]
    by_cases hov : measure (cur ++ " " ++ w) > maxWidth
    · rw [if_pos hov]
      simp [flatSt, List.flatMap_append, List.append_assoc]
    · rw [if_neg hov]
      cases hw with
      | inl h =>
        subst h
        simp only [flatSt]
        rw [append_empty_str, wsWords_append_space_right]
        simp [wsWords_empty]
      | inr h =>
        simp only [flatSt]
        rw [wsWords_append_space]
        simp [List.append_assoc]

theorem foldl_flat :
    ∀ (ts : List String), (∀ t ∈ ts, t = "" ∨ CleanWord t) →
      ∀ st, flatSt (ts.foldl (wrapStep measure maxWidth) st) =
        flatSt st ++ ts.flatMap wsWords := by
  intro ts
  induction ts with
  | nil => intro _ st; simp
  | cons t ts ih =>
    intro h st
    rw [List.foldl_cons, ih (fun x hx => h x (List.mem_cons_of_mem t hx)),
      wrapStep_flat measure maxWidth st t (h t (List.mem_cons_self t ts)),
      List.flatMap_cons, List.append_assoc]

theorem wrapTokens_flatMap (ts : List String)
    (h : ∀ t ∈ ts, t = "" ∨ CleanWord t) :
    (wrapTokens measure maxWidth ts).flatMap wsWords = ts.flatMap wsWords := by
  have hf := foldl_flat measure maxWidth ts h ([], "")
  have hinit : flatSt (([], "") : List String × String) = [] := by
    simp [flatSt, wsWords_empty]
  rw [hinit, List.nil_append] at hf
  unfold wrapTokens
  by_cases h2 : (ts.foldl (wrapStep measure maxWidth) ([], "")).2 = ""
  · rw [if_pos h2]
    unfold flatSt at hf
    rw [h2, wsWords_empty, List.append_nil] at hf
    exact hf
  · rw [if_neg h2]
    unfold flatSt at hf
    rw [List.flatMap_append, List.flatMap_cons, List.flatMap_nil,
      List.append_nil]
    exact hf

theorem writeWrappedText_flatMap (text : String) :
    (writeWrappedText measure text maxWidth).flatMap wsWords = wsWords text := by
  unfold writeWrappedText
  rw [wrapTokens_flatMap measure maxWidth _ fun t ht => jsSplit_tokens ht,
    jsSplit_flatMap]

theorem writeWrappedText_empty :
    writeWrappedText measure "" maxWidth = [] := by
  unfold writeWrappedText jsSplitWs
  rw [if_pos rfl]
  unfold wrapTokens
  rw [List.foldl_cons, wrapStep_empty_cur, List.foldl_nil]
  rfl

theorem wrapStep_nice {st : List String × String} {w : String}
    (hw : CleanWord w) (hst : NiceSt st) :
    NiceSt (wrapStep measure maxWidth st w) := by
  obtain ⟨L, cur⟩ := st
  obtain ⟨hL, hcur⟩ := hst
  by_cases hc : cur = ""
  · subst hc
    rw [wrapStep_eq_empty]
    exact ⟨hL, fun _ => cleanWord_not_endsWithWs hw⟩
  · rw [wrapStep_eq_cons measure maxWidth hc]
    by_cases hov : measure (cur ++ " " ++ w) > maxWidth
    · rw [if_pos hov]
      refine ⟨?_, fun _ => cleanWord_not_endsWithWs hw⟩
      intro l hl
      rcases List.mem_append.mp hl with hl | hl
      · exact hL l hl
      · simp at hl
        subst hl
        exact ⟨hc, hcur hc⟩
    · rw [if_neg hov]
      refine ⟨hL, fun _ => ?_⟩
      rw [endsWithWs_append _ hw.1]
      exact cleanWord_not_endsWithWs hw

theorem foldl_nice :
    ∀ (ts : List String), (∀ t ∈ ts, CleanWord t) →
      ∀ st, NiceSt st → NiceSt (ts.foldl (wrapStep measure maxWidth) st) := by
  intro ts
  induction ts with
  | nil => intro _ st hst; exact hst
  | cons t ts ih =>
    intro h st hst
    rw [List.foldl_cons]
    exact ih (fun x hx => h x (List.mem_cons_of_mem t hx)) _
      (wrapStep_nice measure maxWidth (h t (List.mem_cons_self t ts)) hst)

theorem wrapStep_cur_ne {st : List String × String} {w : String}
    (hw : CleanWord w) : (wrapStep measure maxWidth st w).2 ≠ "" := by
  obtain ⟨L, cur⟩ := st
  by_cases hc : cur = ""
  · subst hc
    rw [wrapStep_eq_empty]
    exact hw.1
  · rw [wrapStep_eq_cons measure maxWidth hc]
    by_cases hov : measure (cur ++ " " ++ w) > maxWidth
    · rw [if_pos hov]
      exact hw.1
    · rw [if_neg hov]
      exact append_space_ne cur w

theorem foldl_cur_ne :
    ∀ (ts : List String), ts ≠ [] → (∀ t ∈ ts, CleanWord t) →
      ∀ st, (ts.foldl (wrapStep measure maxWidth) st).2 ≠ "" := by
  intro ts
  induction ts with
  | nil => intro h; exact absurd rfl h
  | cons t ts ih =>
    intro _ h st
    rw [List.foldl_cons]
    cases hts : ts with
    | nil =>
      rw [List.foldl_nil]
      exact wrapStep_cur_ne measure maxWidth (h t (List.mem_cons_self t ts))
    | cons a as =>
      rw [← hts]
      exact ih (by rw [hts]; simp)
        (fun x hx => h x (List.mem_cons_of_mem t hx)) _

theorem joinSp_cons (l : String) {ls : List String} (h : ls ≠ []) :
    joinSp (l :: ls) = l ++ " " ++ joinSp ls := by
  cases ls with
  | nil => exact absurd rfl h
  | cons a as => rfl

theorem wsWords_joinSp : ∀ ls : List String,
    wsWords (joinSp ls) = ls.flatMap wsWords := by
  intro ls
  induction ls with
  | nil => rfl
  | cons l ls ih =>
    cases hls : ls with
    | nil => simp [joinSp]
    | cons a as =>
      rw [← hls, joinSp_cons l (by rw [hls]; simp), wsWords_append_space, ih,
        List.flatMap_cons]

theorem joinSp_ne (L : List String) {z : String} (hz : z ≠ "") :
    joinSp (L ++ [z]) ≠ "" := by
  cases L with
  | nil => exact hz
  | cons l ls =>
    rw [List.cons_append, joinSp_cons l (by simp)]
    exact append_space_ne l _

theorem joinSp_endsWithWs :
    ∀ (L : List String) {z : String}, z ≠ "" →
      endsWithWs (joinSp (L ++ [z])) = endsWithWs z := by
  intro L
  induction L with
  | nil => intro z _; rfl
  | cons l L ih =>
    intro z hz
    rw [List.cons_append, joinSp_cons l (by simp),
      endsWithWs_append _ (joinSp_ne L hz), ih hz]

/-- The wrapper computed from the clean words alone: for a nonempty string,
the leading empty token of the split is inert and only a possible trailing
empty token remains. -/
theorem writeWrappedText_via_words {s : String} (hd : s.data ≠ []) :
    writeWrappedText measure s maxWidth =
      wrapTokens measure maxWidth
        (wsWords s ++ (if endsWithWs s then [""] else [])) := by
  unfold writeWrappedText jsSplitWs wrapTokens
  rw [if_neg hd]
  rw [List.foldl_append, List.foldl_append, List.foldl_append]
  by_cases hp : startsWithWs s
  · rw [if_pos hp, foldl_wrapStep_empties measure maxWidth [""] (by simp) []]
  · rw [if_neg hp, List.foldl_nil]

theorem jsSplit_tokens_mem {s t : String} (h : t ∈ jsSplitWs s) :
    t = "" ∨ t ∈ wsWords s := by
  unfold jsSplitWs at h
  by_cases h0 : s.data = []
  · rw [if_pos h0] at h
    simp at h
    exact Or.inl h
  · rw [if_neg h0] at h
    rcases List.mem_append.mp h with h1 | h1
    · rcases List.mem_append.mp h1 with h2 | h2
      · by_cases hp : startsWithWs s
        · rw [if_pos hp] at h2
          simp at h2
          exact Or.inl h2
        · rw [if_neg hp] at h2
          simp at h2
      · exact Or.inr h2
    · by_cases hq : endsWithWs s
      · rw [if_pos hq] at h1
        simp at h1
        exact Or.inl h1
      · rw [if_neg hq] at h1
        simp at h1

theorem wrapStep_widths {S : List String} {st : List String × String}
    {w : String} (hw : w = "" ∨ w ∈ S)
    (hst : WidthInv measure maxWidth S st) :
    WidthInv measure maxWidth S (wrapStep measure maxWidth st w) := by
  obtain ⟨L, cur⟩ := st
  obtain ⟨hL, hcur⟩ := hst
  by_cases hc : cur = ""
  · subst hc
    rw [wrapStep_eq_empty]
    exact ⟨hL, hw.imp id Or.inr⟩
  · rw [wrapStep_eq_cons measure maxWidth hc]
    by_cases hov : measure (cur ++ " " ++ w) > maxWidth
    · rw [if_pos hov]
      refine ⟨?_, hw.imp id Or.inr⟩
      intro l hl
      rcases List.mem_append.mp hl with hl | hl
      · exact hL l hl
      · simp at hl
        subst hl
        exact hcur.resolve_left hc
    · rw [if_neg hov]
      exact ⟨hL, Or.inr (Or.inl (le_of_not_lt hov))⟩

theorem foldl_widths {S : List String} :
    ∀ (ts : List String), (∀ t ∈ ts, t = "" ∨ t ∈ S) →
      ∀ st, WidthInv measure maxWidth S st →
        WidthInv measure maxWidth S
          (ts.foldl (wrapStep measure maxWidth) st) := by
  intro ts
  induction ts with
  | nil => intro _ st hst; exact hst
  | cons t ts ih =>
    intro h st hst
    rw [List.foldl_cons]
    exact ih (fun x hx => h x (List.mem_cons_of_mem t hx)) _
      (wrapStep_widths measure maxWidth (h t (List.mem_cons_self t ts)) hst)

theorem wrapTokens_widths {S : List String} (ts : List String)
    (h : ∀ t ∈ ts, t = "" ∨ t ∈ S) :
    ∀ l ∈ wrapTokens measure maxWidth ts, measure l ≤ maxWidth ∨ l ∈ S := by
  have hinv := foldl_widths measure maxWidth ts h ([], "")
    ⟨by simp, Or.inl rfl⟩
  intro l hl
  unfold wrapTokens at hl
  by_cases h2 : (ts.foldl (wrapStep measure maxWidth) ([], "")).2 = ""
  · rw [if_pos h2] at hl
    exact hinv.1 l hl
  · rw [if_neg h2] at hl
    rcases List.mem_append.mp hl with hl | hl
    · exact hinv.1 l hl
    · simp at hl
      subst hl
      exact hinv.2.resolve_left h2

/-- Re-wrapping the single-space join of a line list whose last line is
nonempty is the same as wrapping the concatenation of the lines' words,
with a trailing empty token exactly when the last line ends in
whitespace. -/
theorem wrap_of_join (L : List String) {z : String} (hz : z ≠ "") :
    writeWrappedText measure (joinSp (L ++ [z])) maxWidth =
      wrapTokens measure maxWidth
        ((L ++ [z]).flatMap wsWords ++ (if endsWithWs z then [""] else [])) := by
  have hJne : joinSp (L ++ [z]) ≠ "" := joinSp_ne L hz
  have hJd : (joinSp (L ++ [z])).data ≠ [] :=
    fun hd => hJne (string_data_eq_nil hd)
  rw [writeWrappedText_via_words measure maxWidth hJd, wsWords_joinSp,
    joinSp_endsWithWs L hz]

theorem lenMeasure_mono (a b : String) (hb : b ≠ "") :
    lenMeasure a ≤ lenMeasure (a ++ b) := by
  simp only [lenMeasure, data_append, List.length_append]
  omega

end WrapLemmas

/-- C1 (counterexample): the wrapper does not always return exactly the
reference line sequence.  With the character-count measure, width limit 10
and the input `"a "` (a word followed by a trailing space), the wrapper
returns `["a "]` — the trailing empty token of JavaScript's split extends
the last line with a space — while the reference rule discards the trailing
empty token and returns `["a"]`. -/
theorem C1_counterexample :
    ¬ ∀ (measure : String → Int) (text : String) (maxWidth : Int),
        writeWrappedText measure text maxWidth =
          refWrap measure text maxWidth :=
  fun h => absurd (h lenMeasure "a " 10) (by decide)

/-- C1 (amended): for every measure, width limit, and input text that does
not end in a whitespace character (in particular every text, empty or not,
whose last line cannot pick up a trailing space), the wrapper returns
exactly the line sequence of the reference greedy rule: split into words
discarding empty tokens, greedily accumulate while the candidate fits,
close the line on overflow, put an overlong single word alone on its line,
and return zero lines for empty input. -/
theorem C1_amended_wrap_matches_reference (measure : String → Int)
    (maxWidth : Int) (text : String) (h : endsWithWs text = false) :
    writeWrappedText measure text maxWidth = refWrap measure text maxWidth := by
  by_cases h0 : text.data = []
  · have ht : text = "" := string_data_eq_nil h0
    subst ht
    rw [writeWrappedText_empty]
    unfold refWrap
    rw [wsWords_empty]
    rfl
  · rw [writeWrappedText_via_words measure maxWidth h0, h]
    rw [if_neg (by simp), List.append_nil]
    rfl

/-- C1 (witness): the amended statement applied to a concrete text with no
trailing whitespace. -/
theorem C1_witness :
    writeWrappedText lenMeasure "ab cd" 3 = refWrap lenMeasure "ab cd" 3 :=
  C1_amended_wrap_matches_reference lenMeasure 3 "ab cd" (by decide)

/-- C2: assuming the measure is monotone under appending a non-empty
suffix, every line returned by the wrapper measures within the width limit,
except possibly a line that is a single word of the input whose own
measured width exceeds the limit.  (The invariant actually holds for an
arbitrary measure; monotonicity is kept as the claim states it.) -/
theorem C2_wrap_line_widths (measure : String → Int) (maxWidth : Int)
    (text : String)
    (hmono : ∀ a b : String, b ≠ "" → measure a ≤ measure (a ++ b))
    (line : String)
    (hline : line ∈ writeWrappedText measure text maxWidth) :
    measure line ≤ maxWidth ∨
      (line ∈ wsWords text ∧ maxWidth < measure line) := by
  have h := wrapTokens_widths measure maxWidth (jsSplitWs text)
    (fun t ht => jsSplit_tokens_mem ht) line hline
  rcases h with h | h
  · exact Or.inl h
  · by_cases hle : measure line ≤ maxWidth
    · exact Or.inl hle
    · exact Or.inr ⟨h, lt_of_not_le hle⟩

/-- C2 (witness): the width bound applied at a concrete wrapped line.
`wrap lenMeasure "hello world" 7 = ["hello", "world"]` and the line
`"hello"` measures 5 ≤ 7. -/
theorem C2_witness :
    lenMeasure "hello" ≤ 7 ∨
      ("hello" ∈ wsWords "hello world" ∧ 7 < lenMeasure "hello") :=
  C2_wrap_line_widths lenMeasure 7 "hello world" lenMeasure_mono "hello"
    (by decide)

/-- C10: wrapping never drops, duplicates, reorders or alters a word — the
in-order concatenation of the whitespace-separated words of the output
lines equals the whitespace-separated word sequence of the input text. -/
theorem C10_wrap_preserves_words (measure : String → Int) (maxWidth : Int)
    (text : String) :
    (writeWrappedText measure text maxWidth).flatMap wsWords = wsWords text :=
  writeWrappedText_flatMap measure maxWidth text

/-- C9: the wrapper is idempotent — re-wrapping the single-space join of
its own output at the same width and measure reproduces exactly the same
line sequence, and wrapping the empty string gives no lines. -/
theorem C9_wrap_idempotent (measure : String → Int) (maxWidth : Int)
    (text : String) :
    writeWrappedText measure
        (joinSp (writeWrappedText measure text maxWidth)) maxWidth
      = writeWrappedText measure text maxWidth
    ∧ writeWrappedText measure "" maxWidth = [] := by
  refine ⟨?_, writeWrappedText_empty measure maxWidth⟩
  by_cases h0 : text.data = []
  · have ht : text = "" := string_data_eq_nil h0
    subst ht
    rw [writeWrappedText_empty]
    exact writeWrappedText_empty measure maxWidth
  by_cases hw : wsWords text = []
  · have hlines : writeWrappedText measure text maxWidth = [] := by
      rw [writeWrappedText_via_words measure maxWidth h0, hw, List.nil_append]
      by_cases hq : endsWithWs text
      · rw [if_pos hq]
        unfold wrapTokens
        rw [foldl_wrapStep_empties measure maxWidth [""] (by simp) []]
        rfl
      · rw [if_neg hq]
        rfl
    rw [hlines]
    exact writeWrappedText_empty measure maxWidth
  have hcleanws : ∀ t ∈ wsWords text, CleanWord t :=
    fun t ht => wsWords_mem_clean ht
  set r := (wsWords text).foldl (wrapStep measure maxWidth) ([], "") with hr
  have hrc : r.2 ≠ "" := foldl_cur_ne measure maxWidth _ hw hcleanws _
  have hnice : NiceSt r :=
    foldl_nice measure maxWidth _ hcleanws _
      ⟨by simp, fun hh => absurd rfl hh⟩
  have hflat : flatSt r = wsWords text := by
    rw [hr, foldl_flat measure maxWidth _ (fun t ht => Or.inr (hcleanws t ht)) _,
      flatMap_wsWords_clean _ hcleanws]
    simp [flatSt, wsWords_empty]
  have hflat' : List.flatMap r.1 wsWords ++ wsWords r.2 = wsWords text := by
    simpa [flatSt] using hflat
  have hlinesws : wrapTokens measure maxWidth (wsWords text) = r.1 ++ [r.2] := by
    unfold wrapTokens
    rw [← hr, if_neg hrc]
  have key : writeWrappedText measure (joinSp (r.1 ++ [r.2])) maxWidth
      = r.1 ++ [r.2] := by
    rw [wrap_of_join measure maxWidth r.1 hrc]
    have h1 : (r.1 ++ [r.2]).flatMap wsWords = wsWords text := by
      rw [List.flatMap_append]
      simpa using hflat'
    rw [h1, hnice.2 hrc]
    rw [if_neg (by simp), List.append_nil]
    exact hlinesws
  rw [writeWrappedText_via_words measure maxWidth h0]
  by_cases hq : endsWithWs text
  · rw [if_pos hq]
    have hfold1 : (wsWords text ++ [""]).foldl (wrapStep measure maxWidth)
        ([], "") = wrapStep measure maxWidth r "" := by
      rw [List.foldl_append, ← hr, List.foldl_cons, List.foldl_nil]
    have hstep : wrapStep measure maxWidth r "" =
        if measure (r.2 ++ " " ++ "") > maxWidth then (r.1 ++ [r.2], "")
        else (r.1, r.2 ++ " " ++ "") := by
      have := wrapStep_eq_cons measure maxWidth hrc r.1 ""
      simpa using this
    by_cases hov : measure (r.2 ++ " " ++ "") > maxWidth
    · have hlines2 : wrapTokens measure maxWidth (wsWords text ++ [""])
          = r.1 ++ [r.2] := by
        unfold wrapTokens
        rw [hfold1, hstep, if_pos hov]
        rfl
      rw [hlines2]
      exact key
    · have hzne : r.2 ++ " " ++ "" ≠ "" := append_space_ne r.2 ""
      have hlines2 : wrapTokens measure maxWidth (wsWords text ++ [""])
          = r.1 ++ [r.2 ++ " " ++ ""] := by
        unfold wrapTokens
        rw [hfold1, hstep, if_neg hov, if_neg hzne]
      rw [hlines2]
      have hz2 : r.2 ++ " " ++ "" = r.2 ++ " " := append_empty_str _
      rw [wrap_of_join measure maxWidth r.1 hzne]
      have h1 : (r.1 ++ [r.2 ++ " " ++ ""]).flatMap wsWords = wsWords text := by
        rw [List.flatMap_append]
        simp only [List.flatMap_cons, List.flatMap_nil, List.append_nil]
        rw [hz2, wsWords_append_space_right]
        exact hflat'
      have h2 : endsWithWs (r.2 ++ " " ++ "") = true := by
        rw [hz2, endsWithWs_append r.2 (by decide : (" " : String) ≠ "")]
        rfl
      rw [h1, h2, if_pos rfl]
      exact hlines2
  · rw [if_neg hq, List.append_nil, hlinesws]
    exact key

section PdfLemmas

variable (measure : String → Int) (start end_ : String)

theorem rowBandColors_append (a b : List DrawOp) :
    rowBandColors (a ++ b) = rowBandColors a ++ rowBandColors b :=
  List.filterMap_append a b _

theorem rowBandColors_addHeaderOps (p : Nat) :
    rowBandColors (addHeaderOps p start end_) = [] := rfl

theorem rowBandColors_addTableHeaderOps (p : Nat) :
    rowBandColors (addTableHeaderOps p) = [] := rfl

theorem rowBandColors_descLineOps (p : Nat) (x : Int) :
    ∀ (ls : List String) (dy : Int),
      rowBandColors (descLineOps p x ls dy) = [] := by
  intro ls
  induction ls with
  | nil => intro dy; rfl
  | cons l ls ih =>
    intro dy
    show rowBandColors (DrawOp.text p l x dy 1100 false colorMuted ::
      descLineOps p x ls (dy - lineHeight14)) = []
    unfold rowBandColors
    rw [List.filterMap_cons]
    exact ih (dy - lineHeight14)

theorem rowBandColors_rowOps (p : Nat) (yv : Int) (c0 c1 c2 : String)
    (dl : List String) (nh : Int) :
    rowBandColors (rowOps p yv c0 c1 c2 dl nh) = [colorZebra] := by
  unfold rowOps rowBandColors
  rw [List.filterMap_cons, List.filterMap_cons, List.filterMap_cons,
    List.filterMap_cons]
  have h := rowBandColors_descLineOps p (margin + 31000) dl yv
  unfold rowBandColors at h
  simp [h]

theorem addNewPage_rowBandColors (st : CompState) :
    rowBandColors (addNewPage start end_ st).ops = rowBandColors st.ops := by
  show rowBandColors (st.ops ++ addHeaderOps (st.pageIdx + 1) start end_
    ++ addTableHeaderOps (st.pageIdx + 1)) = rowBandColors st.ops
  rw [rowBandColors_append, rowBandColors_append,
    rowBandColors_addHeaderOps, rowBandColors_addTableHeaderOps]
  simp

theorem rowStep_rowBandColors (st : CompState) (e : TimeEntry) :
    rowBandColors (rowStep measure start end_ st e).ops =
      rowBandColors st.ops ++ [colorZebra] := by
  show rowBandColors
      ((if st.y - rowNeededHeight measure e < bottomMargin
          then addNewPage start end_ st else st).ops ++ rowOps _ _ _ _ _ _ _)
    = rowBandColors st.ops ++ [colorZebra]
  rw [rowBandColors_append, rowBandColors_rowOps]
  by_cases hc : st.y - rowNeededHeight measure e < bottomMargin
  · rw [if_pos hc, addNewPage_rowBandColors]
  · rw [if_neg hc]

theorem foldl_rowBandColors :
    ∀ (es : List TimeEntry) (st : CompState),
      rowBandColors ((es.foldl (rowStep measure start end_) st).ops) =
        rowBandColors st.ops ++ List.replicate es.length colorZebra := by
  intro es
  induction es with
  | nil => intro st; simp
  | cons e es ih =>
    intro st
    rw [List.foldl_cons, ih, rowStep_rowBandColors]
    simp [List.replicate_succ]

theorem footerStep_rowBandColors (st : CompState) :
    rowBandColors (footerStep start end_ st).ops = rowBandColors st.ops := by
  show rowBandColors
      ((if st.y < bottomMargin then addNewPage start end_ st else st).ops
        ++ [_, _]) = rowBandColors st.ops
  rw [rowBandColors_append]
  by_cases hc : st.y < bottomMargin
  · rw [if_pos hc, addNewPage_rowBandColors]
    simp [rowBandColors]
  · rw [if_neg hc]
    simp [rowBandColors]

theorem initState_rowBandColors : rowBandColors (initState start end_).ops = [] := rfl

theorem rowStep_total (st : CompState) (e : TimeEntry) :
    (rowStep measure start end_ st e).total =
      st.total + e.duration_minutes.getD 0 := rfl

theorem foldl_total :
    ∀ (es : List TimeEntry) (st : CompState),
      (es.foldl (rowStep measure start end_) st).total =
        st.total + (es.map fun en => en.duration_minutes.getD 0).sum := by
  intro es
  induction es with
  | nil => intro st; simp
  | cons e es ih =>
    intro st
    rw [List.foldl_cons, ih, rowStep_total]
    simp [add_assoc]

theorem footerStep_total (st : CompState) :
    (footerStep start end_ st).total = st.total := by
  show (if st.y < bottomMargin then addNewPage start end_ st else st).total
    = st.total
  by_cases hc : st.y < bottomMargin
  · rw [if_pos hc]
    rfl
  · rw [if_neg hc]

theorem descLineOps_pages (p : Nat) (x : Int) :
    ∀ (ls : List String) (dy : Int),
      (descLineOps p x ls dy).all (fun op => op.page == p) = true := by
  intro ls
  induction ls with
  | nil => intro dy; rfl
  | cons l ls ih =>
    intro dy
    show (DrawOp.text p l x dy 1100 false colorMuted ::
      descLineOps p x ls (dy - lineHeight14)).all (fun op => op.page == p) = true
    rw [List.all_cons, ih (dy - lineHeight14)]
    simp [DrawOp.page]

theorem rowOps_pages (p : Nat) (yv : Int) (c0 c1 c2 : String)
    (dl : List String) (nh : Int) :
    (rowOps p yv c0 c1 c2 dl nh).all (fun op => op.page == p) = true := by
  unfold rowOps
  rw [List.all_cons, List.all_cons, List.all_cons, List.all_cons,
    descLineOps_pages]
  simp [DrawOp.page]

theorem buildPdf_rowBandColors (entries : List TimeEntry) :
    rowBandColors (buildPdf measure entries start end_).ops =
      List.replicate entries.length colorZebra := by
  unfold buildPdf loopState
  rw [footerStep_rowBandColors, foldl_rowBandColors, initState_rowBandColors,
    List.nil_append]

end PdfLemmas

/-- C3 (counterexample): the zebra band does not alternate its tint per row
index — the source draws every row band with the single constant colour
`colors.zebra` (source line 136).  For a run with two rows, the two
consecutive band colours are equal, refuting any alternation (stated here
as: consecutive band colours always differ). -/
theorem C3_counterexample :
    ¬ ∀ (measure : String → Int) (entries : List TimeEntry)
        (start end_ : String),
        List.Chain' (fun c1 c2 => c1 ≠ c2)
          (rowBandColors (buildPdf measure entries start end_).ops) := by
  intro h
  have h2 := h (fun _ => 0)
    [⟨"2025-01-01", "P", "", some 60, "t"⟩,
     ⟨"2025-01-02", "P", "", some 30, "t"⟩] "2025-01-01" "2025-01-02"
  rw [buildPdf_rowBandColors] at h2
  rw [show List.replicate
      ([⟨"2025-01-01", "P", "", some 60, "t"⟩,
        (⟨"2025-01-02", "P", "", some 30, "t"⟩ : TimeEntry)] :
          List TimeEntry).length colorZebra
      = [colorZebra, colorZebra] from rfl] at h2
  exact (List.chain'_cons.mp h2).1 rfl

/-- C3 (amended): every row's background band is drawn with the same
constant tint `colors.zebra`, for every row index and on every page — the
band colour sequence of a run over any entry list is constantly
`colors.zebra`, one band per row, unaffected by page breaks. -/
theorem C3_amended_constant_band_tint (measure : String → Int)
    (entries : List TimeEntry) (start end_ : String) :
    rowBandColors (buildPdf measure entries start end_).ops =
      List.replicate entries.length colorZebra :=
  buildPdf_rowBandColors measure start end_ entries

/-- C4: (i) a new page is allocated before drawing a row exactly when
`current_offset - row_height < bottom_margin`, with
`row_height = max(single_line_height, wrapped_line_count * line_height)`;
(ii) the row's operations are appended after the (possibly fresh) page
state, all tagged with the final page index; (iii) every operation of a
row batch lies on that one page — no row is split across two pages. -/
theorem C4_page_break_exactly_when_row_overflows (measure : String → Int)
    (start end_ : String) (st : CompState) (e : TimeEntry) :
    ((rowStep measure start end_ st e).pageIdx =
        if st.y - rowNeededHeight measure e < bottomMargin
        then st.pageIdx + 1 else st.pageIdx)
    ∧ (rowStep measure start end_ st e).ops =
        (if st.y - rowNeededHeight measure e < bottomMargin
         then addNewPage start end_ st else st).ops
        ++ rowOps (rowStep measure start end_ st e).pageIdx
            (if st.y - rowNeededHeight measure e < bottomMargin
             then addNewPage start end_ st else st).y
            e.entry_date
            (if e.project_code = "" then "-" else e.project_code)
            (durationCell e.duration_minutes)
            (writeWrappedText measure e.description descWidth)
            (rowNeededHeight measure e)
    ∧ ∀ (p : Nat) (yv : Int) (c0 c1 c2 : String) (dl : List String)
        (nh : Int),
        (rowOps p yv c0 c1 c2 dl nh).all (fun op => op.page == p) = true := by
  refine ⟨?_, rfl, fun p yv c0 c1 c2 dl nh => rowOps_pages p yv c0 c1 c2 dl nh⟩
  by_cases hc : st.y - rowNeededHeight measure e < bottomMargin
  · rw [if_pos hc]
    show (if st.y - rowNeededHeight measure e < bottomMargin
      then addNewPage start end_ st else st).pageIdx = st.pageIdx + 1
    rw [if_pos hc]
    rfl
  · rw [if_neg hc]
    show (if st.y - rowNeededHeight measure e < bottomMargin
      then addNewPage start end_ st else st).pageIdx = st.pageIdx
    rw [if_neg hc]

/-- C5: at every iteration the accumulator equals the sum of the durations
of the entries processed so far (absent durations counting as zero), and
the final total of the composition equals the sum over all entries — page
breaks never touch the accumulator. -/
theorem C5_total_is_sum (measure : String → Int) (start end_ : String)
    (entries : List TimeEntry) :
    (∀ k : Nat,
        (loopState measure (entries.take k) start end_).total =
          ((entries.take k).map fun en => en.duration_minutes.getD 0).sum)
    ∧ (buildPdf measure entries start end_).total =
        (entries.map fun en => en.duration_minutes.getD 0).sum := by
  constructor
  · intro k
    unfold loopState
    rw [foldl_total]
    simp [initState]
  · unfold buildPdf loopState
    rw [footerStep_total, foldl_total]
    simp [initState]

/-- C6: the duration cell renders `duration_minutes = m` as
`"{m / 60}h {m % 60}m"` with integer floor division and remainder; `125`
gives `"2h 5m"`, `0` gives `"0h 0m"`, and an absent duration is treated
exactly as zero. -/
theorem C6_duration_cell_format :
    (∀ m : Nat, durationCell (some (m : Int)) = s!"{m / 60}h {m % 60}m")
    ∧ durationCell (some 125) = "2h 5m"
    ∧ durationCell (some 0) = "0h 0m"
    ∧ durationCell none = "0h 0m" := by
  refine ⟨?_, by decide, by decide, by decide⟩
  intro m
  unfold durationCell
  have h1 : ((m : Int)).fdiv 60 = Int.ofNat (m / 60) := by cases m <;> rfl
  have h2 : ((m : Int)).tmod 60 = Int.ofNat (m % 60) := by cases m <;> rfl
  simp only [Option.getD_some]
  rw [h1, h2]
  rfl

set_option maxRecDepth 8000 in
/-- C7 (counterexample): the footer's page check is not the row fits-check
with the footer's height in place of the row height.  With 24 empty-
description rows the cursor ends at offset `81.89`; the claimed check
`81.89 - 14 < 80` would allocate a new page for the footer, but the source
checks `y < margin + 40` (height 0) and keeps the footer on page one. -/
theorem C7_counterexample :
    ¬ ∀ (measure : String → Int) (entries : List TimeEntry)
        (start end_ : String),
        (buildPdf measure entries start end_).pageIdx =
          (if (loopState measure entries start end_).y - footerHeight
                < bottomMargin
           then (loopState measure entries start end_).pageIdx + 1
           else (loopState measure entries start end_).pageIdx) := by
  intro h
  exact absurd
    (h (fun _ => 0)
      (List.replicate 24 ⟨"2025-01-01", "P", "", some 60, "t"⟩) "a" "b")
    (by decide)

/-- C7 (amended): before the footer the composition applies the fits-check
with needed height 0 — a new page is allocated for the footer exactly when
`current_offset < bottom_margin` (not offset minus the footer's height);
when it triggers, the footer is drawn on the fresh page, even when no
entry triggered a break. -/
theorem C7_amended_footer_fits_check (measure : String → Int)
    (entries : List TimeEntry) (start end_ : String) :
    ((buildPdf measure entries start end_).pageIdx =
        if (loopState measure entries start end_).y < bottomMargin
        then (loopState measure entries start end_).pageIdx + 1
        else (loopState measure entries start end_).pageIdx)
    ∧ (buildPdf measure entries start end_).ops =
        (if (loopState measure entries start end_).y < bottomMargin
         then addNewPage start end_ (loopState measure entries start end_)
         else loopState measure entries start end_).ops
        ++ [ DrawOp.line (buildPdf measure entries start end_).pageIdx margin
              (if (loopState measure entries start end_).y < bottomMargin
               then addNewPage start end_ (loopState measure entries start end_)
               else loopState measure entries start end_).y
              (pageW - margin)
              (if (loopState measure entries start end_).y < bottomMargin
               then addNewPage start end_ (loopState measure entries start end_)
               else loopState measure entries start end_).y
              100 colorBorder,
             DrawOp.text (buildPdf measure entries start end_).pageIdx
              (totalString
                (if (loopState measure entries start end_).y < bottomMargin
                 then addNewPage start end_ (loopState measure entries start end_)
                 else loopState measure entries start end_).total)
              margin
              ((if (loopState measure entries start end_).y < bottomMargin
                then addNewPage start end_ (loopState measure entries start end_)
                else loopState measure entries start end_).y - footerHeight)
              1200 true colorPrimary ] := by
  refine ⟨?_, rfl⟩
  by_cases hc : (loopState measure entries start end_).y < bottomMargin
  · rw [if_pos hc]
    show (if (loopState measure entries start end_).y < bottomMargin
      then addNewPage start end_ (loopState measure entries start end_)
      else loopState measure entries start end_).pageIdx
      = (loopState measure entries start end_).pageIdx + 1
    rw [if_pos hc]
    rfl
  · rw [if_neg hc]
    show (if (loopState measure entries start end_).y < bottomMargin
      then addNewPage start end_ (loopState measure entries start end_)
      else loopState measure entries start end_).pageIdx
      = (loopState measure entries start end_).pageIdx
    rw [if_neg hc]

/-- C8: with zero entries the composition still succeeds totally and
produces a single-page document: exactly the branded header, the column
headers, and the footer rule plus the total line reading
`"Total: 0h 0m (0 minutes)"`, with total 0. -/
theorem C8_empty_entries_single_page (measure : String → Int)
    (start end_ : String) :
    (buildPdf measure [] start end_).pages = 1
    ∧ (buildPdf measure [] start end_).total = 0
    ∧ totalString 0 = "Total: 0h 0m (0 minutes)"
    ∧ (buildPdf measure [] start end_).ops =
        addHeaderOps 0 start end_ ++ addTableHeaderOps 0 ++
          [ DrawOp.line 0 margin yTop (pageW - margin) yTop 100 colorBorder,
            DrawOp.text 0 (totalString 0) margin (yTop - footerHeight) 1200
              true colorPrimary ] := by
  have hbuild : buildPdf measure [] start end_ =
      { pageIdx := 0, y := yTop - footerHeight, total := 0,
        ops := addHeaderOps 0 start end_ ++ addTableHeaderOps 0 ++
          [ DrawOp.line 0 margin yTop (pageW - margin) yTop 100 colorBorder,
            DrawOp.text 0 (totalString 0) margin (yTop - footerHeight) 1200
              true colorPrimary ] } := by
    have hfit : ¬(yTop < bottomMargin) := by decide
    unfold buildPdf loopState footerStep
    rw [List.foldl_nil]
    simp only [initState]
    rw [if_neg hfit]
  rw [hbuild]
  exact ⟨rfl, rfl, by decide, rfl⟩


end TimeReport
